import Mathlib

/-!
A shallow embedding of TiKV's resource-control scheduler
(`components/resource_control/src/resource_group.rs`) and proofs about it.

Modelling conventions:
* Rust `u64` values are `Nat`; every arithmetic operation the source performs
  on `u64` goes through `uadd`/`usub`/`umul`, which reduce modulo `2^64`
  (release-mode wrapping semantics).
* Rust strings / `Vec<u8>` keys are byte sequences, modelled as `List Nat`
  (each entry an octet).  `to_ascii_lowercase` acts bytewise.
* The concurrent hash maps are association lists; `insert` replaces the
  entry with the same key, mirroring `HashMap::insert` / `DashMap::insert`.
* Functions that can panic in Rust (`unwrap`, a failed `assert!`) return
  `Option`, with `none` marking the panic.
* `Instant`-based bookkeeping (`last_rest_vt_time`), logging and fail-points
  are observability-only and are omitted from the state.
-/

namespace ResourceControl

/-- `2^64`, the modulus of Rust `u64` arithmetic. -/
def U64 : Nat := 2 ^ 64

/-- Wrapping `u64` addition. -/
def uadd (a b : Nat) : Nat := (a + b) % U64

/-- Wrapping `u64` multiplication. -/
def umul (a b : Nat) : Nat := (a * b) % U64

/-- Wrapping `u64` subtraction (`fetch_sub` semantics). -/
def usub (a b : Nat) : Nat := (a + (U64 - b % U64)) % U64

/-- A name, as the byte sequence Rust sees (`Vec<u8>` / UTF-8 `String`). -/
abbrev GName := List Nat

/-- The bytes of `"default"` (`DEFAULT_RESOURCE_GROUP_NAME`). -/
def defaultName : GName := [100, 101, 102, 97, 117, 108, 116]

/-- `u8::to_ascii_lowercase`, applied bytewise as `str::to_ascii_lowercase` does. -/
def toLowerBytes (s : GName) : GName :=
  s.map (fun b => if 65 ≤ b ∧ b ≤ 90 then b + 32 else b)

/-- A byte sequence contains no ASCII uppercase letter. -/
def NoUpperName (s : GName) : Prop := ∀ b ∈ s, ¬(65 ≤ b ∧ b ≤ 90)

/-- A byte sequence contains at least one ASCII uppercase letter. -/
def HasUpperName (s : GName) : Prop := ∃ b ∈ s, 65 ≤ b ∧ b ≤ 90

instance (s : GName) : Decidable (NoUpperName s) := by
  unfold NoUpperName; infer_instance

instance (s : GName) : Decidable (HasUpperName s) := by
  unfold HasUpperName; infer_instance

/- Constants from the source file. -/

/-- `DEFAULT_PRIORITY_PER_READ_TASK`: a read task costs at least 50us. -/
def DEFAULT_PRIORITY_PER_READ_TASK : Nat := 50

/-- `TASK_EXTRA_FACTOR_BY_LEVEL`: extra task schedule factor. -/
def TASK_EXTRA_FACTOR_BY_LEVEL : List Nat := [0, 20, 100]

/-- `DEFAULT_MAX_RU_QUOTA`: default value of max RU quota. -/
def DEFAULT_MAX_RU_QUOTA : Nat := 10000

/-- `MAX_RU_QUOTA = i32::MAX as u64`: the maximum RU quota that can be configured. -/
def MAX_RU_QUOTA : Nat := 2 ^ 31 - 1

/-- `MEDIUM_PRIORITY`. -/
def MEDIUM_PRIORITY : Nat := 8

/-- `RESET_VT_THRESHOLD = (u64::MAX >> 4) / 2`. -/
def RESET_VT_THRESHOLD : Nat := ((U64 - 1) >>> 4) / 2

/- Association-list operations standing for the hash maps. -/

/-- First-match association lookup (`HashMap::get`). -/
def alookup {α : Type} : List (GName × α) → GName → Option α
  | [], _ => none
  | (k, v) :: tl, n => if k = n then some v else alookup tl n

/-- Insert-or-replace (`HashMap::insert`). -/
def ainsert {α : Type} : List (GName × α) → GName → α → List (GName × α)
  | [], n, g => [(n, g)]
  | (k, v) :: tl, n, g => if k = n then (n, g) :: tl else (k, v) :: ainsert tl n g

/-- Remove a key (`HashMap::remove`). -/
def aremove {α : Type} : List (GName × α) → GName → List (GName × α)
  | [], _ => []
  | (k, v) :: tl, n => if k = n then aremove tl n else (k, v) :: aremove tl n

/-- Update the value stored under a key in place, leaving other entries alone. -/
def amodify {α : Type} : List (GName × α) → GName → (α → α) → List (GName × α)
  | [], _, _ => []
  | (k, v) :: tl, n, f =>
    if k = n then (k, f v) :: amodify tl n f else (k, v) :: amodify tl n f

/-- `kvrpcpb::CommandPri`. -/
inductive CommandPri where
  | low
  | normal
  | high
deriving Repr, DecidableEq

/-- `resource_manager::GroupMode`. -/
inductive GroupMode where
  | ruMode
  | rawMode
  | unknownMode
deriving Repr, DecidableEq

/-- The `resource_manager::ResourceGroup` protobuf record, restricted to the
fields this file reads: name, priority, mode and the three fill rates. -/
structure ResourceGroup where
  name : GName
  priority : Nat
  mode : GroupMode
  ru_fill_rate : Nat
  raw_cpu_fill_rate : Nat
  raw_io_write_fill_rate : Nat
deriving Repr, DecidableEq

/-- `ResourceConsumeType`.  A `Duration` is carried as its nanosecond count
(`Duration::from_nanos` / `as_micros` are exact on that representation). -/
inductive ResourceConsumeType where
  | cpuTime (nanos : Nat)
  | ioBytes (bytes : Nat)
deriving Repr, DecidableEq

/-- `GroupPriorityTracker`: per-(controller, group) fairness state. -/
structure GroupPriorityTracker where
  ru_quota : Nat
  group_priority : Nat
  weight : Nat
  virtual_time : Nat
  vt_delta_for_get : Nat
deriving Repr, DecidableEq

/-- `ResourceController`.  `last_rest_vt_time` (an `Instant` used only for a
log line) is omitted. -/
structure ResourceController where
  name : GName
  is_read : Bool
  max_ru_quota : Nat
  resource_consumptions : List (GName × GroupPriorityTracker)
  last_min_vt : Nat
  customized : Bool
deriving Repr, DecidableEq

/-- `concat_priority_vt`: `assert!((1..=16).contains(&group_priority))`, then
`vt | (!((group_priority - 1) as u64) << 60)`.  The assertion failure is the
`none` case; `!x` on `u64` is `(U64 - 1) - x`, and `<< 60` wraps mod `2^64`. -/
def concat_priority_vt (group_priority : Nat) (vt : Nat) : Option Nat :=
  if 1 ≤ group_priority ∧ group_priority ≤ 16 then
    some (vt ||| ((((U64 - 1) - (group_priority - 1)) <<< 60) % U64))
  else
    none

namespace GroupPriorityTracker

/-- `GroupPriorityTracker::get_priority`.  Returns the encoded priority and
the tracker after the `fetch_add` side effect (for read controllers).
`level` is always in `{0, 1, 2}` at every call site that cannot panic, so the
array access is `getD`. -/
def get_priority (t : GroupPriorityTracker) (level : Nat) :
    Option (Nat × GroupPriorityTracker) :=
  let task_extra_priority := umul (umul (TASK_EXTRA_FACTOR_BY_LEVEL.getD level 0) 1000) t.weight
  let t' := if 0 < t.vt_delta_for_get then
      { t with virtual_time := uadd t.virtual_time t.vt_delta_for_get }
    else t
  let vt := uadd t'.virtual_time task_extra_priority
  (concat_priority_vt t.group_priority vt).map (fun p => (p, t'))

/-- `GroupPriorityTracker::current_vt`. -/
def current_vt (t : GroupPriorityTracker) : Nat := t.virtual_time

/-- `GroupPriorityTracker::increase_vt` (`fetch_add`). -/
def increase_vt (t : GroupPriorityTracker) (vt_delta : Nat) : GroupPriorityTracker :=
  { t with virtual_time := uadd t.virtual_time vt_delta }

/-- `GroupPriorityTracker::decrease_vt` (`fetch_sub`). -/
def decrease_vt (t : GroupPriorityTracker) (vt_delta : Nat) : GroupPriorityTracker :=
  { t with virtual_time := usub t.virtual_time vt_delta }

/-- `GroupPriorityTracker::consume`: the delta in base units (`as_micros`
for CPU time, the byte count for I/O) times the group weight. -/
def consume (t : GroupPriorityTracker) (resource : ResourceConsumeType) : GroupPriorityTracker :=
  let units := match resource with
    | .cpuTime nanos => nanos / 1000
    | .ioBytes bytes => bytes
  t.increase_vt (umul units t.weight)

end GroupPriorityTracker

namespace ResourceController

/-- `ResourceController::calculate_factor`.  The `f64` computation
`(m as f64 / quota as f64).round() as u64` is modelled by exact rational
round-half-away-from-zero, `(2*m + quota) / (2*quota)`: since
`m ≤ MAX_RU_QUOTA < 2^51`, the correctly-rounded double division can never
land on the other side of a representable half-integer tie point than the
exact quotient (`|m/q − (2k+1)/2| ≥ 1/(2q)` exceeds the half-ulp bound
`(m/q)·2^−53` whenever `m < 2^51`), so the two computations agree on every
`u64` input.  `max_quota * 10` is a wrapping `u64` multiplication. -/
def calculate_factor (max_quota quota : Nat) : Nat :=
  if quota = 0 ∨ quota > max_quota then
    1
  else
    let m := min (umul max_quota 10) MAX_RU_QUOTA
    (2 * m + quota) / (2 * quota)

/-- Modelled from the spec (§4.2 `calculate_weight`): if `quota == 0` or
`quota > max_quota` return 1, else `round(min(max_quota * 10, MAX_RU_QUOTA) /
quota)`.  The spec's `max_quota * 10` is mathematical (no wraparound is
mentioned); the rounding is the same exact round-half-away-from-zero used in
`calculate_factor`. -/
def calculate_weight_spec (max_quota quota : Nat) : Nat :=
  if quota = 0 ∨ quota > max_quota then
    1
  else
    let m := min (max_quota * 10) MAX_RU_QUOTA
    (2 * m + quota) / (2 * quota)

/-- `ResourceController::check_customized`, as the Bool it stores. -/
def checkCustomized (groups : List (GName × GroupPriorityTracker)) : Bool :=
  !(groups.length = 1 && (alookup groups defaultName).isSome)

/-- `ResourceController::adjust_all_resource_group_factors`. -/
def adjust_all_resource_group_factors
    (groups : List (GName × GroupPriorityTracker)) (max_ru_quota : Nat) :
    List (GName × GroupPriorityTracker) :=
  groups.map (fun p => (p.1, { p.2 with weight := calculate_factor max_ru_quota p.2.ru_quota }))

/-- `ResourceController::add_resource_group`. -/
def add_resource_group (c : ResourceController) (name : GName)
    (ru_quota group_priority : Nat) : ResourceController :=
  let group_priority := if group_priority = 0 then MEDIUM_PRIORITY else group_priority
  let ru_quota := if ru_quota > MAX_RU_QUOTA then MAX_RU_QUOTA else ru_quota
  let bump := ru_quota > c.max_ru_quota ∧ (name ≠ defaultName ∨ ru_quota < MAX_RU_QUOTA)
  let max_ru_quota := if bump then ru_quota else c.max_ru_quota
  let base := if bump then adjust_all_resource_group_factors c.resource_consumptions ru_quota
    else c.resource_consumptions
  let weight := calculate_factor max_ru_quota ru_quota
  let vt_delta_for_get := if c.is_read then umul DEFAULT_PRIORITY_PER_READ_TASK weight else 0
  let group : GroupPriorityTracker :=
    { ru_quota := ru_quota
      group_priority := group_priority
      weight := weight
      virtual_time := c.last_min_vt
      vt_delta_for_get := vt_delta_for_get }
  let groups := ainsert base name group
  { c with
    max_ru_quota := max_ru_quota
    resource_consumptions := groups
    customized := checkCustomized groups }

/-- `ResourceController::new`: fresh state plus the built-in "default" group. -/
def new (name : GName) (is_read : Bool) : ResourceController :=
  let controller : ResourceController :=
    { name := name
      is_read := is_read
      max_ru_quota := DEFAULT_MAX_RU_QUOTA
      resource_consumptions := []
      last_min_vt := 0
      customized := false }
  controller.add_resource_group defaultName 0 MEDIUM_PRIORITY

/-- `ResourceController::remove_resource_group`: "default" is reset, never
deleted. -/
def remove_resource_group (c : ResourceController) (name : GName) : ResourceController :=
  if defaultName = name then
    c.add_resource_group defaultName 0 MEDIUM_PRIORITY
  else
    let groups := aremove c.resource_consumptions name
    { c with resource_consumptions := groups, customized := checkCustomized groups }

/-- `ResourceController::resource_group`: lookup with fallback to "default".
The `.unwrap()` on the "default" lookup is the `none` case. -/
def resource_group (c : ResourceController) (name : GName) :
    Option (GName × GroupPriorityTracker) :=
  match alookup c.resource_consumptions name with
  | some g => some (name, g)
  | none => (alookup c.resource_consumptions defaultName).map (fun g => (defaultName, g))

/-- `ResourceController::consume`: mutate the named (or fallback "default")
group's tracker in place. -/
def consume (c : ResourceController) (name : GName) (resource : ResourceConsumeType) :
    Option ResourceController :=
  (c.resource_group name).map (fun kg =>
    { c with resource_consumptions :=
        amodify c.resource_consumptions kg.1 (fun t => t.consume resource) })

/-- The body of `ResourceController::get_priority` after its first lines map
`CommandPri` to a numeric level: delegate to the tracker of the named (or
fallback "default") group, persisting the tracker's `fetch_add` side
effect. -/
def get_priority_level (c : ResourceController) (name : GName) (level : Nat) :
    Option (Nat × ResourceController) :=
  match c.resource_group name with
  | none => none
  | some (key, t) =>
    (t.get_priority level).map (fun pt =>
      (pt.1, { c with resource_consumptions :=
                amodify c.resource_consumptions key (fun _ => pt.2) }))

/-- `ResourceController::get_priority`: map `CommandPri` to a level, then
run the lookup/encode body. -/
def get_priority (c : ResourceController) (name : GName) (pri : CommandPri) :
    Option (Nat × ResourceController) :=
  c.get_priority_level name
    (match pri with
      | .low => 2
      | .normal => 1
      | .high => 0)

/-- `ResourceController::update_min_virtual_time`: snapshot min/max virtual
time, then either no-op, reset every group by `RESET_VT_THRESHOLD`
(near-overflow), or dampen the spread; finally store the (adjusted) max as
`last_min_vt`. -/
def update_min_virtual_time (c : ResourceController) : ResourceController :=
  let min_vt := c.resource_consumptions.foldl (fun acc p => min acc p.2.current_vt) (U64 - 1)
  let max_vt := c.resource_consumptions.foldl (fun acc p => max acc p.2.current_vt) 0
  if max_vt ≤ uadd min_vt 100000 ∧ max_vt < RESET_VT_THRESHOLD then
    c
  else
    let near_overflow := RESET_VT_THRESHOLD < min_vt
    let groups := c.resource_consumptions.map (fun p =>
      let vt := p.2.current_vt
      if RESET_VT_THRESHOLD < min_vt then
        (p.1, p.2.decrease_vt RESET_VT_THRESHOLD)
      else if vt < max_vt then
        (p.1, p.2.increase_vt ((max_vt - vt) / 2))
      else p)
    let max_vt' := if near_overflow then usub max_vt RESET_VT_THRESHOLD else max_vt
    { c with resource_consumptions := groups, last_min_vt := max_vt' }

end ResourceController

/-- `ResourceGroupManager`: the catalog plus every derived controller.  A
caller holding an `Arc<ResourceController>` shares state with the registry
entry, so external `consume`/`get_priority` calls are modelled as operating
on registry slots. -/
structure ResourceGroupManager where
  resource_groups : List (GName × ResourceGroup)
  registry : List ResourceController

/-- `ResourceGroupManager::default()`: empty catalog, no controllers. -/
def ResourceGroupManager.empty : ResourceGroupManager := ⟨[], []⟩

namespace ResourceGroupManager

/-- `ResourceGroupManager::get_ru_setting`. -/
def get_ru_setting (rg : ResourceGroup) (is_read : Bool) : Nat :=
  match rg.mode, is_read with
  | .ruMode, _ => rg.ru_fill_rate
  | .rawMode, true => rg.raw_cpu_fill_rate
  | .rawMode, false => rg.raw_io_write_fill_rate
  | .unknownMode, _ => 1

/-- `ResourceGroupManager::add_resource_group`: lowercase the name, fan out
to every controller, store in the catalog. -/
def add_resource_group (m : ResourceGroupManager) (rg : ResourceGroup) : ResourceGroupManager :=
  let group_name := toLowerBytes rg.name
  { resource_groups := ainsert m.resource_groups group_name rg
    registry := m.registry.map (fun c =>
      c.add_resource_group group_name (get_ru_setting rg c.is_read) rg.priority) }

/-- `ResourceGroupManager::remove_resource_group`: lowercase the name, fan
out the removal, then delete from the catalog (unconditionally). -/
def remove_resource_group (m : ResourceGroupManager) (name : GName) : ResourceGroupManager :=
  let group_name := toLowerBytes name
  { resource_groups := aremove m.resource_groups group_name
    registry := m.registry.map (fun c => c.remove_resource_group group_name) }

/-- `ResourceGroupManager::retain`: drop every catalog entry failing the
predicate and propagate each removal to every controller. -/
def retain (m : ResourceGroupManager) (f : GName → ResourceGroup → Bool) : ResourceGroupManager :=
  let removed_names := (m.resource_groups.filter (fun p => !(f p.1 p.2))).map (·.1)
  { resource_groups := m.resource_groups.filter (fun p => f p.1 p.2)
    registry := m.registry.map (fun c =>
      removed_names.foldl (fun c n => c.remove_resource_group n) c) }

/-- `ResourceGroupManager::derive_controller`: new controller seeded from the
catalog, appended to the registry. -/
def derive_controller (m : ResourceGroupManager) (name : GName) (is_read : Bool) :
    ResourceGroupManager :=
  let controller := ResourceController.new name is_read
  let controller := m.resource_groups.foldl (fun c p =>
    c.add_resource_group p.1 (get_ru_setting p.2 c.is_read) p.2.priority) controller
  { m with registry := m.registry ++ [controller] }

/-- `ResourceGroupManager::advance_min_virtual_time`. -/
def advance_min_virtual_time (m : ResourceGroupManager) : ResourceGroupManager :=
  { m with registry := m.registry.map (·.update_min_virtual_time) }

/-- `ResourceGroupManager::consume_penalty`: on every controller, consume the
penalty's CPU time and write bytes under the context's group name (exact
bytes, no case folding).  `cpuNanos` is `(total_cpu_time_ms * 1_000_000.0) as
u64` and `writeBytes` is `write_bytes as u64`, carried as the already-cast
integers.  A panicking `consume` (no "default" group) leaves the controller
unchanged; in every reachable state "default" exists, so that case is dead. -/
def consume_penalty (m : ResourceGroupManager) (name : GName)
    (cpuNanos writeBytes : Nat) : ResourceGroupManager :=
  { m with registry := m.registry.map (fun c =>
      let c1 := (c.consume name (.cpuTime cpuNanos)).getD c
      (c1.consume name (.ioBytes writeBytes)).getD c1) }

end ResourceGroupManager

/-- External stimuli that drive a `ResourceGroupManager` and its derived
controllers.  `consume`/`getPriority` address a controller by its registry
index (callers hold `Arc`s into the registry). -/
inductive ManagerOp where
  | addGroup (rg : ResourceGroup)
  | removeGroup (name : GName)
  | retain (f : GName → ResourceGroup → Bool)
  | derive (name : GName) (isRead : Bool)
  | advance
  | consumePenalty (name : GName) (cpuNanos writeBytes : Nat)
  | consume (i : Nat) (name : GName) (resource : ResourceConsumeType)
  | getPriority (i : Nat) (name : GName) (pri : CommandPri)

/-- One step of the system.  A panicking call (only possible when a
controller has lost its "default" group, which never happens in reachable
states) leaves the state unchanged. -/
def applyManagerOp (m : ResourceGroupManager) : ManagerOp → ResourceGroupManager
  | .addGroup rg => m.add_resource_group rg
  | .removeGroup name => m.remove_resource_group name
  | .retain f => m.retain f
  | .derive name isRead => m.derive_controller name isRead
  | .advance => m.advance_min_virtual_time
  | .consumePenalty name cpu wb => m.consume_penalty name cpu wb
  | .consume i name r =>
    match m.registry[i]? with
    | none => m
    | some c => { m with registry := m.registry.set i ((c.consume name r).getD c) }
  | .getPriority i name pri =>
    match m.registry[i]? with
    | none => m
    | some c =>
      { m with registry := m.registry.set i (((c.get_priority name pri).map (·.2)).getD c) }

/-- The state after a sequence of stimuli, starting from the default
(empty) manager. -/
def applyManagerOps (ops : List ManagerOp) : ResourceGroupManager :=
  ops.foldl applyManagerOp ResourceGroupManager.empty

/-- Controller-level invariant, maintained in every reachable state: the
"default" group is present, every stored key is free of ASCII uppercase
letters (the Manager lowercases before propagating), and `max_ru_quota`
bounds every group's quota except possibly the "default" group's (the
`MAX_RU_QUOTA` carve-out). -/
def CtrlInv (c : ResourceController) : Prop :=
  (alookup c.resource_consumptions defaultName).isSome ∧
    (∀ p ∈ c.resource_consumptions, NoUpperName p.1) ∧
    (∀ p ∈ c.resource_consumptions, p.1 ≠ defaultName → p.2.ru_quota ≤ c.max_ru_quota)

/-- Manager-level invariant: catalog keys are lowercased and every derived
controller satisfies `CtrlInv`. -/
def MgrInv (m : ResourceGroupManager) : Prop :=
  (∀ p ∈ m.resource_groups, NoUpperName p.1) ∧ ∀ c ∈ m.registry, CtrlInv c

section AListLemmas

variable {α : Type}

theorem alookup_ainsert_self (m : List (GName × α)) (n : GName) (g : α) :
    alookup (ainsert m n g) n = some g := by
  induction m with
  | nil => simp [ainsert, alookup]
  | cons hd tl ih =>
    obtain ⟨k0, v0⟩ := hd
    by_cases h : k0 = n
    · simp [ainsert, h, alookup]
    · simp [ainsert, h, alookup, ih]

theorem alookup_ainsert_ne (m : List (GName × α)) (n k : GName) (g : α) (hk : k ≠ n) :
    alookup (ainsert m n g) k = alookup m k := by
  have hk' : n ≠ k := fun h => hk h.symm
  induction m with
  | nil => simp [ainsert, alookup, hk']
  | cons hd tl ih =>
    obtain ⟨k0, v0⟩ := hd
    by_cases h : k0 = n
    · subst h
      simp [ainsert, alookup, hk']
    · by_cases h2 : k0 = k
      · simp [ainsert, h, alookup, h2, hk]
      · simp [ainsert, h, alookup, h2, ih]

theorem mem_ainsert {m : List (GName × α)} {n : GName} {g : α} {p : GName × α}
    (hp : p ∈ ainsert m n g) : p = (n, g) ∨ p ∈ m := by
  induction m with
  | nil => simpa [ainsert] using hp
  | cons hd tl ih =>
    obtain ⟨k0, v0⟩ := hd
    by_cases h : k0 = n
    · simp only [ainsert, h, if_pos] at hp
      rcases List.mem_cons.mp hp with h1 | h1
      · exact Or.inl h1
      · exact Or.inr (List.mem_cons_of_mem _ h1)
    · simp only [ainsert, if_neg h] at hp
      rcases List.mem_cons.mp hp with h1 | h1
      · exact Or.inr (h1 ▸ List.mem_cons_self _ _)
      · rcases ih h1 with h2 | h2
        · exact Or.inl h2
        · exact Or.inr (List.mem_cons_of_mem _ h2)

theorem mem_ainsert_of_mem {m : List (GName × α)} {n : GName} {g : α} {p : GName × α}
    (hp : p ∈ m) (hne : p.1 ≠ n) : p ∈ ainsert m n g := by
  induction m with
  | nil => cases hp
  | cons hd tl ih =>
    obtain ⟨k0, v0⟩ := hd
    by_cases h : k0 = n
    · simp only [ainsert, h, if_pos]
      rcases List.mem_cons.mp hp with h1 | h1
      · exact absurd (by simpa [h1] using h) hne
      · exact List.mem_cons_of_mem _ h1
    · simp only [ainsert, if_neg h]
      rcases List.mem_cons.mp hp with h1 | h1
      · exact h1 ▸ List.mem_cons_self _ _
      · exact List.mem_cons_of_mem _ (ih h1)

theorem alookup_aremove (m : List (GName × α)) (n k : GName) :
    alookup (aremove m n) k = if k = n then none else alookup m k := by
  induction m with
  | nil => simp [aremove, alookup]
  | cons hd tl ih =>
    obtain ⟨k0, v0⟩ := hd
    by_cases h : k0 = n
    · subst h
      by_cases h2 : k = k0
      · subst h2
        simpa [aremove] using ih
      · have h3 : ¬k0 = k := fun hh => h2 hh.symm
        simp [aremove, alookup, ih, h2, h3]
    · by_cases h2 : k0 = k
      · subst h2
        simp [aremove, if_neg h, alookup, h]
      · simp [aremove, if_neg h, alookup, h2, ih]

theorem mem_aremove {m : List (GName × α)} {n : GName} {p : GName × α}
    (hp : p ∈ aremove m n) : p ∈ m ∧ p.1 ≠ n := by
  induction m with
  | nil => cases hp
  | cons hd tl ih =>
    obtain ⟨k0, v0⟩ := hd
    by_cases h : k0 = n
    · simp only [aremove, h, if_pos] at hp
      exact ⟨List.mem_cons_of_mem _ (ih hp).1, (ih hp).2⟩
    · simp only [aremove, if_neg h] at hp
      rcases List.mem_cons.mp hp with h1 | h1
      · refine ⟨h1 ▸ List.mem_cons_self _ _, ?_⟩
        simpa [h1] using h
      · exact ⟨List.mem_cons_of_mem _ (ih h1).1, (ih h1).2⟩

theorem alookup_amodify (m : List (GName × α)) (n k : GName) (f : α → α) :
    alookup (amodify m n f) k =
      if k = n then (alookup m k).map f else alookup m k := by
  induction m with
  | nil => simp [amodify, alookup]
  | cons hd tl ih =>
    obtain ⟨k0, v0⟩ := hd
    by_cases h : k0 = n
    · subst h
      by_cases h2 : k0 = k
      · subst h2
        simp [amodify, alookup]
      · have h3 : ¬k = k0 := fun hh => h2 hh.symm
        simp [amodify, alookup, h2, h3, ih]
    · by_cases h2 : k0 = k
      · subst h2
        simp [amodify, if_neg h, alookup, h]
      · simp [amodify, if_neg h, alookup, h2, ih]

theorem mem_amodify {m : List (GName × α)} {n : GName} {f : α → α} {p : GName × α}
    (hp : p ∈ amodify m n f) : p ∈ m ∨ ∃ q ∈ m, q.1 = n ∧ p = (q.1, f q.2) := by
  induction m with
  | nil => cases hp
  | cons hd tl ih =>
    obtain ⟨k0, v0⟩ := hd
    by_cases h : k0 = n
    · simp only [amodify, h, if_pos] at hp
      rcases List.mem_cons.mp hp with h1 | h1
      · right
        exact ⟨(k0, v0), List.mem_cons_self _ _, h, by simp only [h]; simpa using h1⟩
      · rcases ih h1 with h2 | h2
        · exact Or.inl (List.mem_cons_of_mem _ h2)
        · rcases h2 with ⟨q, hq, hq1, hq2⟩
          exact Or.inr ⟨q, List.mem_cons_of_mem _ hq, hq1, hq2⟩
    · simp only [amodify, if_neg h] at hp
      rcases List.mem_cons.mp hp with h1 | h1
      · exact Or.inl (h1 ▸ List.mem_cons_self _ _)
      · rcases ih h1 with h2 | h2
        · exact Or.inl (List.mem_cons_of_mem _ h2)
        · rcases h2 with ⟨q, hq, hq1, hq2⟩
          exact Or.inr ⟨q, List.mem_cons_of_mem _ hq, hq1, hq2⟩

end AListLemmas

section ArithLemmas

theorem uadd_eq_add {a b : Nat} (h : a + b < U64) : uadd a b = a + b :=
  Nat.mod_eq_of_lt h

theorem umul_eq_mul {a b : Nat} (h : a * b < U64) : umul a b = a * b :=
  Nat.mod_eq_of_lt h

theorem usub_eq_sub {a b : Nat} (hb : b < U64) (hba : b ≤ a) (ha : a < U64) :
    usub a b = a - b := by
  unfold usub
  rw [Nat.mod_eq_of_lt hb]
  have h1 : a + (U64 - b) = a - b + U64 := by
    unfold U64 at *
    omega
  rw [h1, Nat.add_mod_right, Nat.mod_eq_of_lt]
  unfold U64 at *
  omega

theorem RESET_VT_THRESHOLD_eq : RESET_VT_THRESHOLD = 2 ^ 59 - 1 := by decide

/-- On a valid tier, the encoder ORs `(16 - tier)` into bits 60..63; with the
top four bits of `vt` clear, that is exactly an addition. -/
theorem concat_priority_vt_eq {gp vt : Nat} (h1 : 1 ≤ gp) (h2 : gp ≤ 16)
    (hv : vt < 2 ^ 60) :
    concat_priority_vt gp vt = some ((16 - gp) * 2 ^ 60 + vt) := by
  rw [concat_priority_vt, if_pos ⟨h1, h2⟩]
  congr 1
  have hshift : (((U64 - 1) - (gp - 1)) <<< 60) % U64 = 2 ^ 60 * (16 - gp) := by
    interval_cases gp <;> decide
  rw [hshift, Nat.lor_comm, ← Nat.mul_add_lt_is_or hv, Nat.mul_comm]

end ArithLemmas

/-- C3: for tiers in `[1,16]` and virtual times whose top 4 bits are zero,
`concat_priority_vt` orders strictly by tier descending first (a higher tier
yields a strictly smaller key regardless of virtual times), and within one
tier strictly by virtual time ascending. -/
theorem concat_priority_vt_orders (t1 t2 v1 v2 k1 k2 : Nat)
    (hv1 : v1 < 2 ^ 60) (hv2 : v2 < 2 ^ 60)
    (h1 : concat_priority_vt t1 v1 = some k1)
    (h2 : concat_priority_vt t2 v2 = some k2) :
    (t2 < t1 → k1 < k2) ∧ (t1 = t2 → (k1 < k2 ↔ v1 < v2)) := by
  have hb1 : 1 ≤ t1 ∧ t1 ≤ 16 := by
    by_contra hc
    rw [concat_priority_vt, if_neg hc] at h1
    exact Option.noConfusion h1
  have hb2 : 1 ≤ t2 ∧ t2 ≤ 16 := by
    by_contra hc
    rw [concat_priority_vt, if_neg hc] at h2
    exact Option.noConfusion h2
  rw [concat_priority_vt_eq hb1.1 hb1.2 hv1] at h1
  rw [concat_priority_vt_eq hb2.1 hb2.2 hv2] at h2
  have e1 : k1 = (16 - t1) * 2 ^ 60 + v1 := (Option.some.inj h1).symm
  have e2 : k2 = (16 - t2) * 2 ^ 60 + v2 := (Option.some.inj h2).symm
  constructor
  · intro hlt
    have hm : (16 - t1) + 1 ≤ 16 - t2 := by omega
    calc k1 = (16 - t1) * 2 ^ 60 + v1 := e1
      _ < (16 - t1) * 2 ^ 60 + 2 ^ 60 := by omega
      _ = ((16 - t1) + 1) * 2 ^ 60 := by ring
      _ ≤ (16 - t2) * 2 ^ 60 := Nat.mul_le_mul_right _ hm
      _ ≤ (16 - t2) * 2 ^ 60 + v2 := Nat.le_add_right _ _
      _ = k2 := e2.symm
  · intro heq
    subst heq
    rw [e1, e2]
    omega

/-- Witness for C3 at tiers 2 and 1, virtual times 5 and 3. -/
theorem concat_priority_vt_orders_witness :
    (1 < 2 → 16140901064495857669 < 17293822569102704643) ∧
      (2 = 1 → (16140901064495857669 < 17293822569102704643 ↔ (5 : Nat) < 3)) :=
  concat_priority_vt_orders 2 1 5 3 16140901064495857669 17293822569102704643
    (by decide) (by decide) (by decide) (by decide)

/-- C9: the priority encoder fails fast (the `assert!` fires, modelled as
`none`) exactly on tiers outside `[1, 16]`, and never panics on a tier in
`[1, 16]`. -/
theorem concat_priority_vt_fail_fast (gp vt : Nat) :
    (1 ≤ gp ∧ gp ≤ 16 → (concat_priority_vt gp vt).isSome) ∧
      (¬(1 ≤ gp ∧ gp ≤ 16) → concat_priority_vt gp vt = none) := by
  constructor
  · intro h
    rw [concat_priority_vt, if_pos h]
    rfl
  · intro h
    rw [concat_priority_vt, if_neg h]

/-- Witness for C9: tier 8 succeeds, tier 17 panics. -/
theorem concat_priority_vt_fail_fast_witness :
    (concat_priority_vt 8 5).isSome ∧ concat_priority_vt 17 5 = none :=
  ⟨(concat_priority_vt_fail_fast 8 5).1 (by decide),
    (concat_priority_vt_fail_fast 17 5).2 (by decide)⟩

/-- C7 counterexample: at `max_quota = 2^63`, `quota = 1` the code's wrapping
`max_quota * 10` makes `calculate_factor` return 0, while the claimed formula
`round(min(max_quota * 10, MAX_RU_QUOTA) / quota)` gives `MAX_RU_QUOTA`. -/
theorem calculate_factor_overflow_counterexample :
    ResourceController.calculate_factor (2 ^ 63) 1 = 0 ∧
      ResourceController.calculate_weight_spec (2 ^ 63) 1 = 2147483647 := by
  constructor <;> decide

/-- C7 amended: `calculate_factor` returns 1 whenever `quota = 0` or
`quota > max_quota` (for all inputs), and matches the spec's
`round(min(max_quota * 10, MAX_RU_QUOTA) / quota)` formula whenever
`max_quota * 10` does not overflow a `u64` — in particular for every value
`max_ru_quota` actually takes (`≤ MAX_RU_QUOTA`). -/
theorem calculate_factor_spec (max_quota quota : Nat) :
    (quota = 0 ∨ quota > max_quota → ResourceController.calculate_factor max_quota quota = 1) ∧
      (max_quota * 10 < U64 →
        ResourceController.calculate_factor max_quota quota =
          ResourceController.calculate_weight_spec max_quota quota) := by
  constructor
  · intro h
    rw [ResourceController.calculate_factor, if_pos h]
  · intro h
    rw [ResourceController.calculate_factor, ResourceController.calculate_weight_spec]
    have hm : umul max_quota 10 = max_quota * 10 := umul_eq_mul h
    rw [hm]

/-- Witness for C7's amended statement: the zero-quota branch at `(5, 0)` and
the formula branch at `(10000, 200)`. -/
theorem calculate_factor_spec_witness :
    ResourceController.calculate_factor 5 0 = 1 ∧
      ResourceController.calculate_factor 10000 200 =
        ResourceController.calculate_weight_spec 10000 200 :=
  ⟨(calculate_factor_spec 5 0).1 (by decide), (calculate_factor_spec 10000 200).2 (by decide)⟩

/-- C1 counterexample: in a write controller with one group "g" (quota 100,
weight 1000) that has consumed 1000 I/O bytes (virtual time 1000000),
re-upserting "g" with the unchanged quota 100 resets its virtual time to the
controller's `last_min_vt` (= 0) instead of preserving it. -/
theorem add_resource_group_resets_vt_counterexample :
    (((ResourceController.new [116] false).add_resource_group [103] 100 0).consume [103]
        (.ioBytes 1000)).map (fun c =>
          ((alookup c.resource_consumptions [103]).map GroupPriorityTracker.virtual_time,
            (alookup (c.add_resource_group [103] 100 0).resource_consumptions [103]).map
              GroupPriorityTracker.virtual_time))
      = some (some 1000000, some 0) := by
  decide

/-- C1 amended: `add_resource_group` always stores the upserted group with
`virtual_time = last_min_vt` — an existing group's accumulated virtual time
is NOT preserved; it is re-seeded from the controller's baseline exactly as a
newly created group would be. -/
theorem add_resource_group_resets_vt (c : ResourceController) (name : GName)
    (ru_quota group_priority : Nat) :
    (alookup (c.add_resource_group name ru_quota group_priority).resource_consumptions
        name).map GroupPriorityTracker.virtual_time = some c.last_min_vt := by
  rw [ResourceController.add_resource_group]
  simp only [alookup_ainsert_self, Option.map_some]
  rfl

theorem mem_adjust_all {m : List (GName × GroupPriorityTracker)} {q : Nat}
    {p : GName × GroupPriorityTracker}
    (hp : p ∈ ResourceController.adjust_all_resource_group_factors m q) :
    ∃ o ∈ m,
      p = (o.1, { o.2 with weight := ResourceController.calculate_factor q o.2.ru_quota }) := by
  unfold ResourceController.adjust_all_resource_group_factors at hp
  rcases List.mem_map.mp hp with ⟨o, ho, hoe⟩
  exact ⟨o, ho, hoe.symm⟩

/-- C4: adding a group whose clamped quota exceeds the controller's current
`max_ru_quota` (and which is not the "default" group at exactly
`MAX_RU_QUOTA`) sets `max_ru_quota` to that quota, recomputes every stored
group's weight as `calculate_factor (new max) (its quota)`, and keeps every
pre-existing group (other than the upserted name) with exactly that
recomputed weight. -/
theorem add_resource_group_reweights (c : ResourceController) (name : GName)
    (ru_quota group_priority rq : Nat)
    (hrq : rq = if ru_quota > MAX_RU_QUOTA then MAX_RU_QUOTA else ru_quota)
    (hq : c.max_ru_quota < rq)
    (hd : ¬(name = defaultName ∧ rq = MAX_RU_QUOTA)) :
    (c.add_resource_group name ru_quota group_priority).max_ru_quota = rq ∧
      (∀ p ∈ (c.add_resource_group name ru_quota group_priority).resource_consumptions,
        p.2.weight = ResourceController.calculate_factor rq p.2.ru_quota) ∧
      (∀ p ∈ c.resource_consumptions, p.1 ≠ name →
        (p.1, { p.2 with weight := ResourceController.calculate_factor rq p.2.ru_quota })
          ∈ (c.add_resource_group name ru_quota group_priority).resource_consumptions) := by
  have hle : rq ≤ MAX_RU_QUOTA := by
    rw [hrq]
    split
    · exact Nat.le_refl _
    · omega
  have hcond : rq > c.max_ru_quota ∧ (name ≠ defaultName ∨ rq < MAX_RU_QUOTA) := by
    refine ⟨hq, ?_⟩
    by_cases hn : name = defaultName
    · right
      rcases Nat.lt_or_ge rq MAX_RU_QUOTA with h | h
      · exact h
      · exact absurd ⟨hn, Nat.le_antisymm hle h⟩ hd
    · exact Or.inl hn
  rw [ResourceController.add_resource_group]
  simp only [← hrq, if_pos hcond]
  refine ⟨by trivial, ?_, ?_⟩
  · intro p hp
    rcases mem_ainsert hp with h1 | h1
    · rw [h1]
    · rcases mem_adjust_all h1 with ⟨o, _, hoe⟩
      rw [hoe]
  · intro p hp hne
    refine mem_ainsert_of_mem ?_ hne
    unfold ResourceController.adjust_all_resource_group_factors
    exact List.mem_map_of_mem _ hp

/-- Witness for C4: a fresh write controller (max 10000) absorbing a group of
quota 20000. -/
theorem add_resource_group_reweights_witness :
    ((ResourceController.new [116] false).add_resource_group [103] 20000 0).max_ru_quota
      = 20000 :=
  (add_resource_group_reweights (ResourceController.new [116] false) [103] 20000 0 20000
    (by decide) (by decide) (by decide)).1

section FoldVtLemmas

theorem foldl_min_vt_gt {l : List (GName × GroupPriorityTracker)} {b : Nat}
    (hl : ∀ p ∈ l, b < p.2.virtual_time) :
    ∀ init, b < init →
      b < l.foldl (fun acc p => min acc p.2.current_vt) init := by
  induction l with
  | nil =>
    intro init h
    simpa using h
  | cons hd tl ih =>
    intro init h
    have hhd := hl hd (List.mem_cons_self _ _)
    exact ih (fun p hp => hl p (List.mem_cons_of_mem _ hp)) _ (lt_min h hhd)

theorem le_foldl_max_vt (l : List (GName × GroupPriorityTracker)) :
    ∀ init, init ≤ l.foldl (fun acc p => max acc p.2.current_vt) init := by
  induction l with
  | nil =>
    intro init
    exact Nat.le_refl _
  | cons hd tl ih =>
    intro init
    exact Nat.le_trans (Nat.le_max_left _ _) (ih (max init hd.2.current_vt))

theorem mem_le_foldl_max_vt {l : List (GName × GroupPriorityTracker)}
    {p : GName × GroupPriorityTracker} (hp : p ∈ l) :
    ∀ init, p.2.virtual_time ≤ l.foldl (fun acc p => max acc p.2.current_vt) init := by
  induction l with
  | nil => cases hp
  | cons hd tl ih =>
    intro init
    rcases List.mem_cons.mp hp with h1 | h1
    · subst h1
      exact Nat.le_trans (Nat.le_max_right init _) (le_foldl_max_vt tl _)
    · exact ih h1 _

end FoldVtLemmas

/-- C2: when every group's virtual time exceeds `RESET_VT_THRESHOLD` (the
snapshotted minimum then exceeds the threshold; "driven to exceed" also means
it has not yet doubled it), `update_min_virtual_time` subtracts exactly
`RESET_VT_THRESHOLD` from every group's virtual time, bringing every group
back below `RESET_VT_THRESHOLD`. -/
theorem update_min_virtual_time_reset (c : ResourceController)
    (hvt : ∀ p ∈ c.resource_consumptions,
      RESET_VT_THRESHOLD < p.2.virtual_time ∧
        p.2.virtual_time < 2 * RESET_VT_THRESHOLD) :
    (c.update_min_virtual_time).resource_consumptions =
        c.resource_consumptions.map (fun p =>
          (p.1, { p.2 with virtual_time := p.2.virtual_time - RESET_VT_THRESHOLD })) ∧
      ∀ p ∈ (c.update_min_virtual_time).resource_consumptions,
        p.2.virtual_time < RESET_VT_THRESHOLD := by
  have hmain : (c.update_min_virtual_time).resource_consumptions =
      c.resource_consumptions.map (fun p =>
        (p.1, { p.2 with virtual_time := p.2.virtual_time - RESET_VT_THRESHOLD })) := by
    rcases hl : c.resource_consumptions with _ | ⟨hd, tl⟩
    · rw [ResourceController.update_min_virtual_time, hl]
      rw [if_pos (by decide), hl]
      rfl
    · rw [← hl]
      have hmin : RESET_VT_THRESHOLD <
          c.resource_consumptions.foldl (fun acc p => min acc p.2.current_vt) (U64 - 1) :=
        foldl_min_vt_gt (fun p hp => (hvt p hp).1) _ (by decide)
      have hmax : RESET_VT_THRESHOLD <
          c.resource_consumptions.foldl (fun acc p => max acc p.2.current_vt) 0 := by
        have h1 : hd ∈ c.resource_consumptions := by
          rw [hl]
          exact List.mem_cons_self _ _
        exact Nat.lt_of_lt_of_le (hvt hd h1).1 (mem_le_foldl_max_vt h1 0)
      rw [ResourceController.update_min_virtual_time]
      rw [if_neg (by
        intro hcontra
        exact absurd hcontra.2 (Nat.not_lt_of_le (Nat.le_of_lt hmax)))]
      simp only [if_pos hmin]
      refine List.map_congr_left ?_
      intro p hp
      have h2 := hvt p hp
      have h3 : p.2.decrease_vt RESET_VT_THRESHOLD =
          { p.2 with virtual_time := p.2.virtual_time - RESET_VT_THRESHOLD } := by
        unfold GroupPriorityTracker.decrease_vt
        rw [usub_eq_sub (by decide) (Nat.le_of_lt h2.1) (by
          have h4 : (2 : Nat) * RESET_VT_THRESHOLD < U64 := by decide
          omega)]
      rw [h3]
  refine ⟨hmain, ?_⟩
  intro p hp
  rw [hmain] at hp
  rcases List.mem_map.mp hp with ⟨o, ho, hoe⟩
  have h2 := hvt o ho
  rw [← hoe]
  simp only []
  omega

section NameLemmas

theorem toLowerBytes_noUpper (s : GName) : NoUpperName (toLowerBytes s) := by
  intro b hb
  rcases List.mem_map.mp hb with ⟨a, _, ha⟩
  by_cases h : 65 ≤ a ∧ a ≤ 90
  · rw [if_pos h] at ha
    omega
  · rw [if_neg h] at ha
    omega

theorem defaultName_noUpper : NoUpperName defaultName := by decide

theorem alookup_mem {α : Type} {m : List (GName × α)} {k : GName} {v : α}
    (h : alookup m k = some v) : (k, v) ∈ m := by
  induction m with
  | nil => cases h
  | cons hd tl ih =>
    obtain ⟨k0, v0⟩ := hd
    by_cases hk : k0 = k
    · rw [alookup, if_pos hk] at h
      subst hk
      rw [Option.some.inj h]
      exact List.mem_cons_self _ _
    · rw [alookup, if_neg hk] at h
      exact List.mem_cons_of_mem _ (ih h)

theorem alookup_none_of_hasUpper {α : Type} {m : List (GName × α)}
    (hm : ∀ p ∈ m, NoUpperName p.1) {s : GName} (hs : HasUpperName s) :
    alookup m s = none := by
  induction m with
  | nil => rfl
  | cons hd tl ih =>
    obtain ⟨k0, v0⟩ := hd
    have hk : ¬k0 = s := by
      intro he
      rcases hs with ⟨b, hb, hbu⟩
      exact hm (k0, v0) (List.mem_cons_self _ _) b (he ▸ hb) hbu
    rw [alookup, if_neg hk]
    exact ih (fun p hp => hm p (List.mem_cons_of_mem _ hp))

end NameLemmas

section ControllerLemmas

theorem alookup_adjust_all (m : List (GName × GroupPriorityTracker)) (q : Nat) (k : GName) :
    alookup (ResourceController.adjust_all_resource_group_factors m q) k =
      (alookup m k).map
        (fun o => { o with weight := ResourceController.calculate_factor q o.ru_quota }) := by
  induction m with
  | nil => rfl
  | cons hd tl ih =>
    obtain ⟨k0, v0⟩ := hd
    by_cases h : k0 = k
    · simp [ResourceController.adjust_all_resource_group_factors, alookup, h]
    · simpa [ResourceController.adjust_all_resource_group_factors, alookup, h] using ih

theorem alookup_add_isSome_self (c : ResourceController) (n : GName) (q t : Nat) :
    (alookup (c.add_resource_group n q t).resource_consumptions n).isSome := by
  rw [ResourceController.add_resource_group]
  simp only [alookup_ainsert_self, Option.isSome_some]

theorem alookup_add_isSome_of {c : ResourceController} {k : GName}
    (h : (alookup c.resource_consumptions k).isSome) (n : GName) (q t : Nat) :
    (alookup (c.add_resource_group n q t).resource_consumptions k).isSome := by
  by_cases hk : k = n
  · subst hk
    exact alookup_add_isSome_self c k q t
  · rw [ResourceController.add_resource_group]
    simp only []
    rw [alookup_ainsert_ne _ _ _ _ hk]
    by_cases hb : (if q > MAX_RU_QUOTA then MAX_RU_QUOTA else q) > c.max_ru_quota ∧
        (n ≠ defaultName ∨ (if q > MAX_RU_QUOTA then MAX_RU_QUOTA else q) < MAX_RU_QUOTA)
    · rw [if_pos hb, alookup_adjust_all]
      simpa using h
    · rw [if_neg hb]
      exact h

theorem mem_add_resource_group {c : ResourceController} {name : GName} {q t : Nat}
    {p : GName × GroupPriorityTracker}
    (hp : p ∈ (c.add_resource_group name q t).resource_consumptions) :
    (p.1 = name ∧ p.2.ru_quota = (if q > MAX_RU_QUOTA then MAX_RU_QUOTA else q)) ∨
      ∃ o ∈ c.resource_consumptions, p.1 = o.1 ∧ p.2.ru_quota = o.2.ru_quota := by
  rw [ResourceController.add_resource_group] at hp
  simp only [] at hp
  rcases mem_ainsert hp with h1 | h1
  · left
    rw [h1]
    exact ⟨rfl, rfl⟩
  · right
    by_cases hb : (if q > MAX_RU_QUOTA then MAX_RU_QUOTA else q) > c.max_ru_quota ∧
        (name ≠ defaultName ∨ (if q > MAX_RU_QUOTA then MAX_RU_QUOTA else q) < MAX_RU_QUOTA)
    · rw [if_pos hb] at h1
      rcases mem_adjust_all h1 with ⟨o, ho, hoe⟩
      exact ⟨o, ho, by rw [hoe], by rw [hoe]⟩
    · rw [if_neg hb] at h1
      exact ⟨p, h1, rfl, rfl⟩

theorem add_max_eq (c : ResourceController) (n : GName) (q t : Nat) :
    (c.add_resource_group n q t).max_ru_quota =
      if (if q > MAX_RU_QUOTA then MAX_RU_QUOTA else q) > c.max_ru_quota ∧
          (n ≠ defaultName ∨ (if q > MAX_RU_QUOTA then MAX_RU_QUOTA else q) < MAX_RU_QUOTA) then
        (if q > MAX_RU_QUOTA then MAX_RU_QUOTA else q)
      else c.max_ru_quota := rfl

theorem add_max_mono (c : ResourceController) (n : GName) (q t : Nat) :
    c.max_ru_quota ≤ (c.add_resource_group n q t).max_ru_quota := by
  rw [add_max_eq]
  by_cases hb : (if q > MAX_RU_QUOTA then MAX_RU_QUOTA else q) > c.max_ru_quota ∧
      (n ≠ defaultName ∨ (if q > MAX_RU_QUOTA then MAX_RU_QUOTA else q) < MAX_RU_QUOTA)
  · rw [if_pos hb]
    exact Nat.le_of_lt hb.1
  · rw [if_neg hb]

theorem CtrlInv_add {c : ResourceController} (h : CtrlInv c) {name : GName}
    (hn : NoUpperName name) (q t : Nat) : CtrlInv (c.add_resource_group name q t) := by
  obtain ⟨h1, h2, h3⟩ := h
  refine ⟨alookup_add_isSome_of h1 name q t, ?_, ?_⟩
  · intro p hp
    rcases mem_add_resource_group hp with ⟨hp1, _⟩ | ⟨o, ho, hp1, _⟩
    · rw [hp1]
      exact hn
    · rw [hp1]
      exact h2 o ho
  · intro p hp hne
    rcases mem_add_resource_group hp with ⟨hp1, hp2⟩ | ⟨o, ho, hp1, hp2⟩
    · rw [hp2, add_max_eq]
      by_cases hb : (if q > MAX_RU_QUOTA then MAX_RU_QUOTA else q) > c.max_ru_quota ∧
          (name ≠ defaultName ∨ (if q > MAX_RU_QUOTA then MAX_RU_QUOTA else q) < MAX_RU_QUOTA)
      · rw [if_pos hb]
      · rw [if_neg hb]
        rcases Nat.lt_or_ge c.max_ru_quota (if q > MAX_RU_QUOTA then MAX_RU_QUOTA else q)
          with hlt | hge
        · exact absurd ⟨hlt, Or.inl (hp1 ▸ hne)⟩ hb
        · exact hge
    · rw [hp2]
      exact Nat.le_trans (h3 o ho (hp1 ▸ hne)) (add_max_mono c name q t)

theorem CtrlInv_new (name : GName) (is_read : Bool) :
    CtrlInv (ResourceController.new name is_read) := by
  have hg : (ResourceController.new name is_read).resource_consumptions =
      [(defaultName, ⟨0, MEDIUM_PRIORITY, 1, 0, if is_read then 50 else 0⟩)] := by
    cases is_read <;> rfl
  refine ⟨?_, ?_, ?_⟩
  · rw [hg]
    rfl
  · intro p hp
    rw [hg] at hp
    rcases List.mem_cons.mp hp with h1 | h1
    · rw [h1]
      exact defaultName_noUpper
    · cases h1
  · intro p hp hne
    rw [hg] at hp
    rcases List.mem_cons.mp hp with h1 | h1
    · exact absurd (by rw [h1]) hne
    · cases h1

theorem CtrlInv_remove {c : ResourceController} (h : CtrlInv c) (name : GName) :
    CtrlInv (c.remove_resource_group name) := by
  rw [ResourceController.remove_resource_group]
  split
  · exact CtrlInv_add h defaultName_noUpper 0 MEDIUM_PRIORITY
  · next hcase =>
    obtain ⟨h1, h2, h3⟩ := h
    refine ⟨?_, ?_, ?_⟩
    · rw [alookup_aremove, if_neg hcase]
      exact h1
    · intro p hp
      exact h2 p (mem_aremove hp).1
    · intro p hp hne
      exact h3 p (mem_aremove hp).1 hne

theorem CtrlInv_remove_foldl {c : ResourceController} (h : CtrlInv c) (names : List GName) :
    CtrlInv (names.foldl (fun c n => c.remove_resource_group n) c) := by
  induction names generalizing c with
  | nil => exact h
  | cons hd tl ih => exact ih (CtrlInv_remove h hd)

theorem CtrlInv_add_foldl {c : ResourceController} (h : CtrlInv c)
    {entries : List (GName × ResourceGroup)} (hnames : ∀ p ∈ entries, NoUpperName p.1) :
    CtrlInv (entries.foldl (fun c p =>
      c.add_resource_group p.1 (ResourceGroupManager.get_ru_setting p.2 c.is_read)
        p.2.priority) c) := by
  induction entries generalizing c with
  | nil => exact h
  | cons hd tl ih =>
    exact ih (CtrlInv_add h (hnames hd (List.mem_cons_self _ _)) _ _)
      (fun p hp => hnames p (List.mem_cons_of_mem _ hp))

theorem alookup_isSome_map_keyfix {α : Type} {m : List (GName × α)}
    {f : GName × α → GName × α} (hf : ∀ p, (f p).1 = p.1) (k : GName) :
    (alookup (m.map f) k).isSome = (alookup m k).isSome := by
  induction m with
  | nil => rfl
  | cons hd tl ih =>
    obtain ⟨k0, v0⟩ := hd
    rcases hfd : f (k0, v0) with ⟨a, b⟩
    have ha : a = k0 := by
      have h2 := hf (k0, v0)
      rw [hfd] at h2
      exact h2
    subst ha
    simp only [List.map_cons, hfd, alookup]
    by_cases hk : a = k
    · simp [hk]
    · simp [hk, ih]

theorem update_min_keys_isSome (c : ResourceController) (k : GName) :
    (alookup (c.update_min_virtual_time).resource_consumptions k).isSome =
      (alookup c.resource_consumptions k).isSome := by
  rw [ResourceController.update_min_virtual_time]
  split
  · rfl
  · refine alookup_isSome_map_keyfix ?_ k
    intro p
    dsimp only
    split
    · rfl
    · split <;> rfl

theorem decrease_vt_ru_quota (t : GroupPriorityTracker) (d : Nat) :
    (t.decrease_vt d).ru_quota = t.ru_quota := rfl

theorem increase_vt_ru_quota (t : GroupPriorityTracker) (d : Nat) :
    (t.increase_vt d).ru_quota = t.ru_quota := rfl

theorem update_min_mem {c : ResourceController} {p : GName × GroupPriorityTracker}
    (hp : p ∈ (c.update_min_virtual_time).resource_consumptions) :
    ∃ o ∈ c.resource_consumptions, p.1 = o.1 ∧ p.2.ru_quota = o.2.ru_quota := by
  rw [ResourceController.update_min_virtual_time] at hp
  split at hp
  · exact ⟨p, hp, rfl, rfl⟩
  · rcases List.mem_map.mp hp with ⟨o, ho, hoe⟩
    dsimp only at hoe
    by_cases h1 : RESET_VT_THRESHOLD <
        c.resource_consumptions.foldl (fun acc p => min acc p.2.current_vt) (U64 - 1)
    · rw [if_pos h1] at hoe
      exact ⟨o, ho, by rw [← hoe], by rw [← hoe]; exact decrease_vt_ru_quota o.2 _⟩
    · rw [if_neg h1] at hoe
      by_cases h2 : o.2.current_vt <
          c.resource_consumptions.foldl (fun acc p => max acc p.2.current_vt) 0
      · rw [if_pos h2] at hoe
        exact ⟨o, ho, by rw [← hoe], by rw [← hoe]; exact increase_vt_ru_quota o.2 _⟩
      · rw [if_neg h2] at hoe
        exact ⟨o, ho, by rw [← hoe], by rw [← hoe]⟩

theorem update_min_max_eq (c : ResourceController) :
    (c.update_min_virtual_time).max_ru_quota = c.max_ru_quota := by
  rw [ResourceController.update_min_virtual_time]
  split <;> rfl

theorem CtrlInv_update {c : ResourceController} (h : CtrlInv c) :
    CtrlInv c.update_min_virtual_time := by
  obtain ⟨h1, h2, h3⟩ := h
  refine ⟨?_, ?_, ?_⟩
  · rw [update_min_keys_isSome]
    exact h1
  · intro p hp
    rcases update_min_mem hp with ⟨o, ho, hk, _⟩
    rw [hk]
    exact h2 o ho
  · intro p hp hne
    rcases update_min_mem hp with ⟨o, ho, hk, hq⟩
    rw [hq, update_min_max_eq]
    exact h3 o ho (hk ▸ hne)

theorem resource_group_spec {c : ResourceController} {name key : GName}
    {t : GroupPriorityTracker} (h : c.resource_group name = some (key, t)) :
    alookup c.resource_consumptions key = some t := by
  rw [ResourceController.resource_group] at h
  cases hn : alookup c.resource_consumptions name with
  | some g =>
    rw [hn] at h
    injection h with h2
    injection h2 with ha hb
    subst ha
    subst hb
    exact hn
  | none =>
    rw [hn] at h
    cases hd : alookup c.resource_consumptions defaultName with
    | some g =>
      rw [hd] at h
      simp only [Option.map_some] at h
      injection h with h2
      injection h2 with ha hb
      subst ha
      subst hb
      exact hd
    | none =>
      rw [hd] at h
      cases h

theorem get_priority_tracker_ru {t : GroupPriorityTracker} {level : Nat}
    {pt : Nat × GroupPriorityTracker} (h : t.get_priority level = some pt) :
    pt.2.ru_quota = t.ru_quota := by
  rw [GroupPriorityTracker.get_priority] at h
  rcases Option.map_eq_some'.mp h with ⟨v, _, hpt⟩
  rw [← hpt]
  dsimp only
  split <;> rfl

theorem CtrlInv_amodify {c : ResourceController} (h : CtrlInv c) (n : GName)
    (f : GroupPriorityTracker → GroupPriorityTracker)
    (hf : ∀ o ∈ c.resource_consumptions, o.1 = n → o.1 ≠ defaultName →
      (f o.2).ru_quota ≤ c.max_ru_quota) :
    CtrlInv { c with resource_consumptions := amodify c.resource_consumptions n f } := by
  obtain ⟨h1, h2, h3⟩ := h
  refine ⟨?_, ?_, ?_⟩
  · show (alookup (amodify c.resource_consumptions n f) defaultName).isSome
    rw [alookup_amodify]
    split
    · simpa using h1
    · exact h1
  · intro p hp
    rcases mem_amodify hp with h4 | ⟨o, ho, _, hoe⟩
    · exact h2 p h4
    · rw [hoe]
      exact h2 o ho
  · intro p hp hne
    rcases mem_amodify hp with h4 | ⟨o, ho, ho1, hoe⟩
    · exact h3 p h4 hne
    · rw [hoe] at hne ⊢
      exact hf o ho ho1 hne

theorem CtrlInv_consume_getD {c : ResourceController} (h : CtrlInv c)
    (name : GName) (r : ResourceConsumeType) : CtrlInv ((c.consume name r).getD c) := by
  rw [ResourceController.consume]
  cases hrg : c.resource_group name with
  | none => simpa using h
  | some kg =>
    simp only [Option.map_some', Option.getD_some]
    obtain ⟨key, t⟩ := kg
    refine CtrlInv_amodify h key _ ?_
    intro o ho ho1 hne
    exact h.2.2 o ho hne

theorem CtrlInv_get_priority_level_getD {c : ResourceController} (h : CtrlInv c)
    (name : GName) (level : Nat) :
    CtrlInv (((c.get_priority_level name level).map Prod.snd).getD c) := by
  rw [ResourceController.get_priority_level.eq_def]
  cases hrg : c.resource_group name with
  | none => simpa using h
  | some kt =>
    obtain ⟨key, t⟩ := kt
    dsimp only
    cases hgp : t.get_priority level with
    | none => simpa using h
    | some pt =>
      simp only [Option.map_some', Option.getD_some]
      refine CtrlInv_amodify h key _ ?_
      intro o ho ho1 hne
      show pt.2.ru_quota ≤ c.max_ru_quota
      rw [get_priority_tracker_ru hgp]
      exact h.2.2 (key, t) (alookup_mem (resource_group_spec hrg)) (ho1 ▸ hne)

theorem CtrlInv_get_priority_getD {c : ResourceController} (h : CtrlInv c)
    (name : GName) (pri : CommandPri) :
    CtrlInv (((c.get_priority name pri).map Prod.snd).getD c) := by
  rw [ResourceController.get_priority.eq_def]
  exact CtrlInv_get_priority_level_getD h name _

end ControllerLemmas

section ManagerInvariant

theorem MgrInv_step {m : ResourceGroupManager} (h : MgrInv m) (op : ManagerOp) :
    MgrInv (applyManagerOp m op) := by
  obtain ⟨hcat, hreg⟩ := h
  cases op with
  | addGroup rg =>
    refine ⟨?_, ?_⟩
    · intro p hp
      rcases mem_ainsert hp with h1 | h1
      · rw [h1]
        exact toLowerBytes_noUpper _
      · exact hcat p h1
    · intro c hc
      rcases List.mem_map.mp hc with ⟨c0, hc0, hce⟩
      rw [← hce]
      exact CtrlInv_add (hreg c0 hc0) (toLowerBytes_noUpper _) _ _
  | removeGroup name =>
    refine ⟨?_, ?_⟩
    · intro p hp
      exact hcat p (mem_aremove hp).1
    · intro c hc
      rcases List.mem_map.mp hc with ⟨c0, hc0, hce⟩
      rw [← hce]
      exact CtrlInv_remove (hreg c0 hc0) _
  | retain f =>
    refine ⟨?_, ?_⟩
    · intro p hp
      exact hcat p (List.mem_filter.mp hp).1
    · intro c hc
      rcases List.mem_map.mp hc with ⟨c0, hc0, hce⟩
      rw [← hce]
      exact CtrlInv_remove_foldl (hreg c0 hc0) _
  | derive nm isRead =>
    refine ⟨hcat, ?_⟩
    intro c hc
    rcases List.mem_append.mp hc with h1 | h1
    · exact hreg c h1
    · rw [List.mem_singleton.mp h1]
      exact CtrlInv_add_foldl (CtrlInv_new nm isRead) hcat
  | advance =>
    refine ⟨hcat, ?_⟩
    intro c hc
    rcases List.mem_map.mp hc with ⟨c0, hc0, hce⟩
    rw [← hce]
    exact CtrlInv_update (hreg c0 hc0)
  | consumePenalty name cpu wb =>
    refine ⟨hcat, ?_⟩
    intro c hc
    rcases List.mem_map.mp hc with ⟨c0, hc0, hce⟩
    rw [← hce]
    exact CtrlInv_consume_getD (CtrlInv_consume_getD (hreg c0 hc0) _ _) _ _
  | consume i name r =>
    simp only [applyManagerOp]
    cases hi : m.registry[i]? with
    | none => exact ⟨hcat, hreg⟩
    | some c0 =>
      refine ⟨hcat, ?_⟩
      intro c hc
      rcases List.mem_or_eq_of_mem_set hc with h1 | h1
      · exact hreg c h1
      · rw [h1]
        exact CtrlInv_consume_getD (hreg c0 (List.getElem?_mem hi)) _ _
  | getPriority i name pri =>
    simp only [applyManagerOp]
    cases hi : m.registry[i]? with
    | none => exact ⟨hcat, hreg⟩
    | some c0 =>
      refine ⟨hcat, ?_⟩
      intro c hc
      rcases List.mem_or_eq_of_mem_set hc with h1 | h1
      · exact hreg c h1
      · rw [h1]
        exact CtrlInv_get_priority_getD (hreg c0 (List.getElem?_mem hi)) _ _

theorem MgrInv_foldl {m : ResourceGroupManager} (h : MgrInv m) (ops : List ManagerOp) :
    MgrInv (ops.foldl applyManagerOp m) := by
  induction ops generalizing m with
  | nil => exact h
  | cons hd tl ih => exact ih (MgrInv_step h hd)

theorem MgrInv_reachable (ops : List ManagerOp) : MgrInv (applyManagerOps ops) :=
  MgrInv_foldl ⟨fun p hp => absurd hp (List.not_mem_nil p),
    fun c hc => absurd hc (List.not_mem_nil c)⟩ ops

end ManagerInvariant

section FallbackLemmas

theorem isSome_map_eq {α β : Type} (f : α → β) (x : Option α) :
    (x.map f).isSome = x.isSome := by
  cases x <;> rfl

theorem resource_group_fallback {c : ResourceController} {name : GName}
    (h : alookup c.resource_consumptions name = none) :
    c.resource_group name = c.resource_group defaultName := by
  rw [ResourceController.resource_group.eq_def, ResourceController.resource_group.eq_def, h]
  cases hd : alookup c.resource_consumptions defaultName <;> simp

theorem consume_fallback {c : ResourceController} {name : GName}
    (h : alookup c.resource_consumptions name = none) (r : ResourceConsumeType) :
    c.consume name r = c.consume defaultName r := by
  rw [ResourceController.consume, ResourceController.consume, resource_group_fallback h]

theorem get_priority_level_fallback {c : ResourceController} {name : GName}
    (h : alookup c.resource_consumptions name = none) (level : Nat) :
    c.get_priority_level name level = c.get_priority_level defaultName level := by
  rw [ResourceController.get_priority_level.eq_def, ResourceController.get_priority_level.eq_def,
    resource_group_fallback h]

end FallbackLemmas

/-- C6: `get_priority` and `consume` with a name absent from the group map
behave exactly as the same call on "default" — same returned value, same
state change — and never signal an error: `consume` succeeds whenever the
"default" group exists, and `get_priority` succeeds whenever the "default"
group exists with its (always valid in reachable states) tier. -/
theorem unknown_group_acts_as_default (c : ResourceController) (name : GName)
    (r : ResourceConsumeType) (pri : CommandPri)
    (h : alookup c.resource_consumptions name = none) :
    c.consume name r = c.consume defaultName r ∧
      c.get_priority name pri = c.get_priority defaultName pri ∧
      ((alookup c.resource_consumptions defaultName).isSome → (c.consume name r).isSome) ∧
      (∀ t, alookup c.resource_consumptions defaultName = some t →
        1 ≤ t.group_priority → t.group_priority ≤ 16 →
        (c.get_priority name pri).isSome) := by
  refine ⟨consume_fallback h r, ?_, ?_, ?_⟩
  · rw [ResourceController.get_priority.eq_def, ResourceController.get_priority.eq_def]
    exact get_priority_level_fallback h _
  · intro hd
    rw [ResourceController.consume]
    rw [ResourceController.resource_group.eq_def, h]
    rcases Option.isSome_iff_exists.mp hd with ⟨t, ht⟩
    rw [ht]
    rfl
  · intro t ht h1 h2
    rw [ResourceController.get_priority.eq_def, ResourceController.get_priority_level.eq_def]
    rw [ResourceController.resource_group.eq_def, h, ht]
    dsimp only [Option.map_some']
    rw [isSome_map_eq, GroupPriorityTracker.get_priority]
    rw [isSome_map_eq, concat_priority_vt, if_pos ⟨h1, h2⟩]
    rfl

/-- Witness for C6 on a fresh write controller and the unknown name "x". -/
theorem unknown_group_acts_as_default_witness :
    (ResourceController.new [116] false).consume [120] (.ioBytes 5)
        = (ResourceController.new [116] false).consume defaultName (.ioBytes 5) ∧
      ((ResourceController.new [116] false).get_priority [120] .normal).isSome :=
  ⟨(unknown_group_acts_as_default _ [120] (.ioBytes 5) .normal (by decide)).1,
    (unknown_group_acts_as_default _ [120] (.ioBytes 5) .normal (by decide)).2.2.2
      ⟨0, 8, 1, 0, 0⟩ (by decide) (by decide) (by decide)⟩

/-- C5 counterexample: the catalog of a fresh Manager has no "default" entry,
and the Manager's `remove_resource_group "default"` deletes a previously
added "default" entry from the catalog instead of resetting it — "default"
is only guaranteed inside controllers, not in the Manager's catalog. -/
theorem default_group_manager_counterexample :
    alookup (applyManagerOps []).resource_groups defaultName = none ∧
      alookup (applyManagerOps [ManagerOp.addGroup ⟨defaultName, 0, .ruMode, 0, 0, 0⟩,
          ManagerOp.removeGroup defaultName]).resource_groups defaultName = none := by
  constructor <;> decide

/-- C5 amended: in every reachable state, every derived Controller's group
map contains "default" (controller-level removal and retain reset it rather
than delete it); the Manager's catalog gives no such guarantee. -/
theorem default_group_always_in_controllers (ops : List ManagerOp)
    (c : ResourceController) (hc : c ∈ (applyManagerOps ops).registry) :
    (alookup c.resource_consumptions defaultName).isSome :=
  ((MgrInv_reachable ops).2 c hc).1

/-- Witness for C5's amended statement on a freshly derived controller. -/
theorem default_group_always_in_controllers_witness :
    (alookup ((applyManagerOps [ManagerOp.derive [114] true]).registry.getD 0
        (ResourceController.new [114] true)).resource_consumptions defaultName).isSome :=
  default_group_always_in_controllers [ManagerOp.derive [114] true] _ (by decide)

section MaxMonoLemmas

theorem remove_max_mono (c : ResourceController) (name : GName) :
    c.max_ru_quota ≤ (c.remove_resource_group name).max_ru_quota := by
  rw [ResourceController.remove_resource_group]
  split
  · exact add_max_mono c defaultName 0 MEDIUM_PRIORITY
  · exact Nat.le_refl _

theorem remove_foldl_max_mono (names : List GName) : ∀ c : ResourceController,
    c.max_ru_quota ≤ (names.foldl (fun c n => c.remove_resource_group n) c).max_ru_quota := by
  induction names with
  | nil =>
    intro c
    exact Nat.le_refl _
  | cons hd tl ih =>
    intro c
    exact Nat.le_trans (remove_max_mono c hd) (ih _)

theorem consume_getD_max_eq (c : ResourceController) (name : GName)
    (r : ResourceConsumeType) :
    ((c.consume name r).getD c).max_ru_quota = c.max_ru_quota := by
  rw [ResourceController.consume]
  cases hrg : c.resource_group name with
  | none => rfl
  | some kg => rfl

theorem get_priority_level_getD_max_eq (c : ResourceController) (name : GName) (level : Nat) :
    (((c.get_priority_level name level).map Prod.snd).getD c).max_ru_quota =
      c.max_ru_quota := by
  rw [ResourceController.get_priority_level.eq_def]
  cases hrg : c.resource_group name with
  | none => rfl
  | some kt =>
    obtain ⟨key, t⟩ := kt
    dsimp only
    cases hgp : t.get_priority level with
    | none => rfl
    | some pt => rfl

theorem get_priority_getD_max_eq (c : ResourceController) (name : GName) (pri : CommandPri) :
    (((c.get_priority name pri).map Prod.snd).getD c).max_ru_quota = c.max_ru_quota := by
  rw [ResourceController.get_priority.eq_def]
  exact get_priority_level_getD_max_eq c name _

theorem registry_max_mono_step (m : ResourceGroupManager) (op : ManagerOp) (i : Nat)
    {c c' : ResourceController}
    (hc : m.registry[i]? = some c)
    (hc' : (applyManagerOp m op).registry[i]? = some c') :
    c.max_ru_quota ≤ c'.max_ru_quota := by
  cases op with
  | addGroup rg =>
    simp only [applyManagerOp, ResourceGroupManager.add_resource_group,
      List.getElem?_map, hc, Option.map_some'] at hc'
    rw [← Option.some.inj hc']
    exact add_max_mono _ _ _ _
  | removeGroup name =>
    simp only [applyManagerOp, ResourceGroupManager.remove_resource_group,
      List.getElem?_map, hc, Option.map_some'] at hc'
    rw [← Option.some.inj hc']
    exact remove_max_mono _ _
  | retain f =>
    simp only [applyManagerOp, ResourceGroupManager.retain,
      List.getElem?_map, hc, Option.map_some'] at hc'
    rw [← Option.some.inj hc']
    exact remove_foldl_max_mono _ _
  | derive nm isRead =>
    have hlen : i < m.registry.length := (List.getElem?_eq_some_iff.mp hc).1
    simp only [applyManagerOp, ResourceGroupManager.derive_controller] at hc'
    rw [List.getElem?_append_left hlen, hc] at hc'
    rw [← Option.some.inj hc']
  | advance =>
    simp only [applyManagerOp, ResourceGroupManager.advance_min_virtual_time,
      List.getElem?_map, hc, Option.map_some'] at hc'
    rw [← Option.some.inj hc', update_min_max_eq]
  | consumePenalty name cpu wb =>
    simp only [applyManagerOp, ResourceGroupManager.consume_penalty,
      List.getElem?_map, hc, Option.map_some'] at hc'
    rw [← Option.some.inj hc']
    rw [consume_getD_max_eq, consume_getD_max_eq]
  | consume j name r =>
    simp only [applyManagerOp] at hc'
    cases hj : m.registry[j]? with
    | none =>
      rw [hj] at hc'
      rw [hc] at hc'
      rw [← Option.some.inj hc']
    | some c0 =>
      rw [hj] at hc'
      dsimp only at hc'
      rw [List.getElem?_set] at hc'
      by_cases hij : j = i
      · subst hij
        have hlen : j < m.registry.length := (List.getElem?_eq_some_iff.mp hc).1
        rw [if_pos rfl, if_pos hlen] at hc'
        have hc0 : c0 = c := Option.some.inj (hj.symm.trans hc)
        rw [← Option.some.inj hc', hc0, consume_getD_max_eq]
      · rw [if_neg hij, hc] at hc'
        rw [← Option.some.inj hc']
  | getPriority j name pri =>
    simp only [applyManagerOp] at hc'
    cases hj : m.registry[j]? with
    | none =>
      rw [hj] at hc'
      rw [hc] at hc'
      rw [← Option.some.inj hc']
    | some c0 =>
      rw [hj] at hc'
      dsimp only at hc'
      rw [List.getElem?_set] at hc'
      by_cases hij : j = i
      · subst hij
        have hlen : j < m.registry.length := (List.getElem?_eq_some_iff.mp hc).1
        rw [if_pos rfl, if_pos hlen] at hc'
        have hc0 : c0 = c := Option.some.inj (hj.symm.trans hc)
        rw [← Option.some.inj hc', hc0, get_priority_getD_max_eq]
      · rw [if_neg hij, hc] at hc'
        rw [← Option.some.inj hc']

end MaxMonoLemmas

/-- C8 counterexample: a freshly derived controller has `max_ru_quota =
DEFAULT_MAX_RU_QUOTA = 10000`, but its only group ("default") has quota 0 —
`max_ru_quota` does not equal the largest quota seen across the groups. -/
theorem max_ru_quota_not_largest_counterexample :
    ∃ c ∈ (applyManagerOps [ManagerOp.derive [114] true]).registry,
      c.max_ru_quota ≠ c.resource_consumptions.foldl (fun a p => max a p.2.ru_quota) 0 := by
  decide

/-- C8 amended: in every reachable controller, `max_ru_quota` is an upper
bound on every non-"default" group's quota (the "default" group at exactly
`MAX_RU_QUOTA` is carved out and need not be bounded), and it is
monotonically non-decreasing under every operation, including group removal;
it does not in general equal the largest stored quota (it starts at
`DEFAULT_MAX_RU_QUOTA = 10000` beside a quota-0 "default" group). -/
theorem max_ru_quota_bound_and_monotone (ops : List ManagerOp) (op : ManagerOp) (i : Nat)
    (c c' : ResourceController)
    (hc : (applyManagerOps ops).registry[i]? = some c)
    (hc' : (applyManagerOp (applyManagerOps ops) op).registry[i]? = some c') :
    (∀ p ∈ c.resource_consumptions, p.1 ≠ defaultName → p.2.ru_quota ≤ c.max_ru_quota) ∧
      c.max_ru_quota ≤ c'.max_ru_quota :=
  ⟨((MgrInv_reachable ops).2 c (List.getElem?_mem hc)).2.2,
    registry_max_mono_step _ op i hc hc'⟩

/-- Witness for C8's amended statement: a freshly derived read controller
stepped by `advance`. -/
theorem max_ru_quota_bound_and_monotone_witness :
    (∀ p ∈ (ResourceController.new [114] true).resource_consumptions,
        p.1 ≠ defaultName →
          p.2.ru_quota ≤ (ResourceController.new [114] true).max_ru_quota) ∧
      (ResourceController.new [114] true).max_ru_quota ≤
        ((ResourceController.new [114] true).update_min_virtual_time).max_ru_quota :=
  max_ru_quota_bound_and_monotone [ManagerOp.derive [114] true] ManagerOp.advance 0
    (ResourceController.new [114] true)
    ((ResourceController.new [114] true).update_min_virtual_time)
    (by decide) (by decide)

/-- C10: the Manager lowercases group names before storing them in the
catalog and propagating them to controllers, while `consume`, `get_priority`
and `consume_penalty` look names up by exact bytes; hence after registering a
group under a name with an uppercase ASCII letter, the lowercased entry is
present in every controller but any call spelled with the original name
misses and silently operates on the "default" group. -/
theorem uppercase_names_fall_to_default (ops : List ManagerOp) (s : GName)
    (hs : HasUpperName s) (rg : ResourceGroup) (hrg : rg.name = s)
    (c : ResourceController)
    (hc : c ∈ (applyManagerOp (applyManagerOps ops) (.addGroup rg)).registry) :
    alookup c.resource_consumptions s = none ∧
      (alookup c.resource_consumptions (toLowerBytes s)).isSome ∧
      (∀ r, c.consume s r = c.consume defaultName r) ∧
      (∀ pri, c.get_priority s pri = c.get_priority defaultName pri) ∧
      (∀ cpu wb,
        (applyManagerOp (applyManagerOps ops) (.addGroup rg)).consume_penalty s cpu wb =
          (applyManagerOp (applyManagerOps ops)
            (.addGroup rg)).consume_penalty defaultName cpu wb) := by
  have hm1 : MgrInv (applyManagerOp (applyManagerOps ops) (.addGroup rg)) :=
    MgrInv_step (MgrInv_reachable ops) _
  have hlk : alookup c.resource_consumptions s = none :=
    alookup_none_of_hasUpper (hm1.2 c hc).2.1 hs
  refine ⟨hlk, ?_, fun r => consume_fallback hlk r, ?_, ?_⟩
  · simp only [applyManagerOp, ResourceGroupManager.add_resource_group] at hc
    rcases List.mem_map.mp hc with ⟨c0, _, hce⟩
    rw [← hce, hrg]
    exact alookup_add_isSome_self c0 (toLowerBytes s) _ _
  · intro pri
    rw [ResourceController.get_priority.eq_def, ResourceController.get_priority.eq_def]
    exact get_priority_level_fallback hlk _
  · intro cpu wb
    rw [ResourceGroupManager.consume_penalty, ResourceGroupManager.consume_penalty]
    congr 1
    refine List.map_congr_left ?_
    intro c1 hc1
    have hinv1 := hm1.2 c1 hc1
    have h1 : alookup c1.resource_consumptions s = none :=
      alookup_none_of_hasUpper hinv1.2.1 hs
    dsimp only
    rw [consume_fallback h1]
    have hinv2 := CtrlInv_consume_getD hinv1 defaultName (.cpuTime cpu)
    have h2 : alookup ((c1.consume defaultName
        (.cpuTime cpu)).getD c1).resource_consumptions s = none :=
      alookup_none_of_hasUpper hinv2.2.1 hs
    rw [consume_fallback h2]

/-- Witness for C10: the group "T" registered on a manager with one read
controller; lookups under "T" miss while "t" hits. -/
theorem uppercase_names_fall_to_default_witness :
    alookup ((applyManagerOp (applyManagerOps [ManagerOp.derive [114] true])
        (.addGroup ⟨[84], 0, .ruMode, 100, 100, 100⟩)).registry.getD 0
        (ResourceController.new [114] true)).resource_consumptions [84] = none :=
  (uppercase_names_fall_to_default [ManagerOp.derive [114] true] [84] (by decide)
    ⟨[84], 0, .ruMode, 100, 100, 100⟩ (by decide) _ (by decide)).1

/-- Witness for C2: one group at virtual time `2^59`, just past the threshold
`2^59 − 1`; the reset leaves it at 1. -/
theorem update_min_virtual_time_reset_witness :
    (ResourceController.update_min_virtual_time
        ⟨[116], false, 10000, [(defaultName, ⟨0, 8, 1, 2 ^ 59, 0⟩)], 0, false⟩).resource_consumptions
        = [(defaultName, (⟨0, 8, 1, 2 ^ 59, 0⟩ : GroupPriorityTracker))].map (fun p =>
            (p.1, { p.2 with virtual_time := p.2.virtual_time - RESET_VT_THRESHOLD })) ∧
      ∀ p ∈ (ResourceController.update_min_virtual_time
          ⟨[116], false, 10000, [(defaultName, ⟨0, 8, 1, 2 ^ 59, 0⟩)], 0,
            false⟩).resource_consumptions,
        p.2.virtual_time < RESET_VT_THRESHOLD :=
  update_min_virtual_time_reset
    ⟨[116], false, 10000, [(defaultName, ⟨0, 8, 1, 2 ^ 59, 0⟩)], 0, false⟩ (by decide)

end ResourceControl
